import Mathlib

/-
Verification development for the SALT bulk-load pipeline
(`build_SALT_data.py`): a chunked, transactional loader that streams rows
from in-memory buffers into four SQLite tables.

The embedding models:
  * `insert_dataframe_in_chunks` (source lines 144-175): the chunked loader.
    The SQLite connection is abstracted as a `flushOk` oracle saying whether
    a given `executemany` batch succeeds; the loader records a trace of
    transaction events (BEGIN / flush / COMMIT / ROLLBACK) and returns the
    submitted-row count, or `none` when the exception is re-raised.
  * the module-level DROP/CREATE statements (lines 74-139): table name
    sequences and the declared foreign-key edges.
  * the module-level load sequence (lines 196-281): the orchestrator,
    recording read / load / close events per entity.
  * the `INSERT OR IGNORE` conflict policy and the `astype(str)`
    normalization of the creation date/time columns.
-/

namespace SaltBuild

/-- Transaction-level events emitted by the chunked loader against the
SQLite connection, in order: `BEGIN TRANSACTION`, one `executemany` per
batch (`flush`), then `COMMIT` or `ROLLBACK`. -/
inductive Event (Row : Type) where
  | begin : Event Row
  | flush (batch : List Row) : Event Row
  | commit : Event Row
  | rollback : Event Row
deriving DecidableEq, Repr

/-- The loop body of `insert_dataframe_in_chunks` (source lines 157-173):
iterate over the remaining rows, appending each to `buffer`; when the buffer
length equals `chunk_size` the buffer is flushed (`executemany`) and
`count_inserted += chunk_size`; after the loop a non-empty leftover buffer is
flushed and `count_inserted += len(buffer)`; then `COMMIT`.  Any failing
flush triggers `ROLLBACK` and the exception is re-raised (result `none`).
`chunk_size` is an `Int` because Python allows any integer there. -/
def chunkLoop {Row : Type} (flushOk : List Row → Bool) (chunk_size : Int) :
    List Row → List Row → Int → List (Event Row) → List (Event Row) × Option Int
  | [], buffer, count, trace =>
    if buffer.isEmpty then
      (trace ++ [Event.commit], some count)
    else if flushOk buffer then
      (trace ++ [Event.flush buffer, Event.commit], some (count + buffer.length))
    else
      (trace ++ [Event.rollback], none)
  | row :: rest, buffer, count, trace =>
    let buffer2 := buffer ++ [row]
    if (buffer2.length : Int) = chunk_size then
      if flushOk buffer2 then
        chunkLoop flushOk chunk_size rest [] (count + chunk_size)
          (trace ++ [Event.flush buffer2])
      else
        (trace ++ [Event.rollback], none)
    else
      chunkLoop flushOk chunk_size rest buffer2 count trace

/-- `insert_dataframe_in_chunks` (source lines 144-175): `BEGIN TRANSACTION`
is executed first, then the row loop runs with an empty buffer and zero
count.  Returns the event trace and `some count_inserted`, or `none` when
the re-raised exception propagates to the caller. -/
def insert_dataframe_in_chunks {Row : Type} (flushOk : List Row → Bool)
    (rows : List Row) (chunk_size : Int) : List (Event Row) × Option Int :=
  chunkLoop flushOk chunk_size rows [] 0 [Event.begin]

/-- Default batch size `CHUNK_SIZE = 10_000` (source line 18). -/
def CHUNK_SIZE : Int := 10000

/-- The batches submitted to `executemany`, in flush order, read off a
loader trace. -/
def flushBatches {Row : Type} (trace : List (Event Row)) : List (List Row) :=
  trace.filterMap fun e =>
    match e with
    | Event.flush b => some b
    | _ => none

/-- Splitting a list into consecutive chunks of size `B`, the final chunk
possibly smaller.  Used to state what the loader's flush sequence is. -/
def chunksOf {α : Type} (B : Nat) : List α → List (List α)
  | [] => []
  | x :: xs =>
    if 1 ≤ B then
      ((x :: xs).take B) :: chunksOf B ((x :: xs).drop B)
    else
      [x :: xs]
termination_by l => l.length
decreasing_by
  simp only [List.length_drop, List.length_cons]
  omega

/-- Discriminator for the BEGIN event. -/
def isBeginEv {Row : Type} : Event Row → Bool
  | Event.begin => true
  | _ => false

/-- Discriminator for the transaction-ending events COMMIT and ROLLBACK. -/
def isEndEv {Row : Type} : Event Row → Bool
  | Event.commit => true
  | Event.rollback => true
  | _ => false

/-- Order in which the module-level `DROP TABLE IF EXISTS` statements run
(source lines 74-77). -/
def dropOrder : List String :=
  ["I_SalesDocumentItem", "I_SalesDocument", "I_Customer",
   "I_AddrOrgNamePostalAddress"]

/-- Order in which the module-level `CREATE TABLE` statements run
(source lines 81-137). -/
def createOrder : List String :=
  ["I_SalesDocument", "I_SalesDocumentItem", "I_Customer",
   "I_AddrOrgNamePostalAddress"]

/-- The foreign-key edges (child table, parent table) declared by the
`CREATE TABLE` statements: `I_SalesDocumentItem` references
`I_SalesDocument` (line 114) and `I_Customer` (lines 115-118, via the four
party-role columns), and `I_Customer` references
`I_AddrOrgNamePostalAddress` (line 126). -/
def foreignKeyEdges : List (String × String) :=
  [("I_SalesDocumentItem", "I_SalesDocument"),
   ("I_SalesDocumentItem", "I_Customer"),
   ("I_Customer", "I_AddrOrgNamePostalAddress")]

/-- Every child table is dropped before each of its parent tables. -/
def dropsChildrenFirst : Bool :=
  foreignKeyEdges.all fun e => dropOrder.indexOf e.1 < dropOrder.indexOf e.2

/-- Every parent table is created before each child table referencing it. -/
def createsParentsFirst : Bool :=
  foreignKeyEdges.all fun e => createOrder.indexOf e.2 < createOrder.indexOf e.1

/-- A target table under the "insert, ignore duplicates" policy, modelled as
the list of its rows in insertion order together with a key projection. -/
def hasKey {Row K : Type} [DecidableEq K] (key : Row → K) (table : List Row)
    (k : K) : Bool :=
  table.any fun r2 => key r2 == k

/-- Modelled from the spec: the target store's `INSERT OR IGNORE` conflict
policy (source lines 199-210 build the statement; SQLite executes it): a row
whose primary key already exists in the table is silently skipped, otherwise
the row is appended. -/
def insertOrIgnore {Row K : Type} [DecidableEq K] (key : Row → K)
    (table : List Row) (r : Row) : List Row :=
  if hasKey key table (key r) then table else table ++ [r]

/-- Loading a row sequence into a table one row at a time under the
insert-or-ignore policy. -/
def loadRows {Row K : Type} [DecidableEq K] (key : Row → K) (table : List Row)
    (rows : List Row) : List Row :=
  rows.foldl (insertOrIgnore key) table

/-- A value held in a source-buffer cell: a native date, a native
time-of-day, or text. -/
inductive PyValue where
  | date (y m d : Nat) : PyValue
  | time (h mi s : Nat) : PyValue
  | text (s : String) : PyValue
deriving DecidableEq, Repr

/-- Zero-padded two-digit decimal rendering. -/
def pad2 (n : Nat) : String :=
  if n < 10 then "0" ++ toString n else toString n

/-- Zero-padded four-digit decimal rendering. -/
def pad4 (n : Nat) : String :=
  if n < 10 then "000" ++ toString n
  else if n < 100 then "00" ++ toString n
  else if n < 1000 then "0" ++ toString n
  else toString n

/-- Modelled from the spec: the `astype(str)` normalization (source lines
238-239) applies Python's built-in `str()` to each cell; `str()` of a native
`datetime.date` is the canonical zero-padded ISO text `YYYY-MM-DD`, of a
native `datetime.time` the text `HH:MM:SS`, and of text is the text
itself.  The Python `str` semantics is library behaviour outside this
repository. -/
def pyStr : PyValue → String
  | PyValue.date y m d => pad4 y ++ "-" ++ pad2 m ++ "-" ++ pad2 d
  | PyValue.time h mi s => pad2 h ++ ":" ++ pad2 mi ++ ":" ++ pad2 s
  | PyValue.text s => s

/-- The normalization step for the sales-document buffer (source lines
238-239): the `CREATIONDATE` and `CREATIONTIME` columns are converted with
`astype(str)` before the buffer is handed to the loader; all other columns
are left unchanged.  A row is modelled as a map from column name to cell
value. -/
def normalize_salesdocuments (row : String → PyValue) : String → PyValue :=
  fun c =>
    if c = "CREATIONDATE" then PyValue.text (pyStr (row c))
    else if c = "CREATIONTIME" then PyValue.text (pyStr (row c))
    else row c

/-- Reading a TEXT-typed cell back from the target store: the stored text is
returned as-is; a non-text native value has no canonical text read-back. -/
def readBackText : PyValue → Option String
  | PyValue.text s => some s
  | _ => none

/-- The four entities loaded by the module-level load sequence. -/
inductive Entity where
  | address : Entity
  | customer : Entity
  | salesDocument : Entity
  | salesDocumentItem : Entity
deriving DecidableEq, Repr

/-- Target table per entity (source lines 200, 219, 243, 262). -/
def tableName : Entity → String
  | Entity.address => "I_AddrOrgNamePostalAddress"
  | Entity.customer => "I_Customer"
  | Entity.salesDocument => "I_SalesDocument"
  | Entity.salesDocumentItem => "I_SalesDocumentItem"

/-- The fixed order of the module-level load sequence (source lines
196-272): addresses, then customers, then sales documents, then sales
document items. -/
def loadOrder : List Entity :=
  [Entity.address, Entity.customer, Entity.salesDocument,
   Entity.salesDocumentItem]

/-- Orchestrator-level events: reading one entity's source file into a
buffer, a completed loader call against a target table reporting its
returned row count, and closing the store connection. -/
inductive OEvent (Row : Type) where
  | read (e : Entity) : OEvent Row
  | load (e : Entity) (table : String) (n : Int) : OEvent Row
  | close : OEvent Row
deriving DecidableEq, Repr

/-- The module-level load sequence (source lines 196-281): for each entity
in order, read its buffer and call `insert_dataframe_in_chunks` with
`CHUNK_SIZE` against its table; an exception raised by the loader propagates
immediately (result `false`) — the remaining entities are not attempted and,
because the script has no try/finally around the loads, `conn.close()`
(line 281) is not reached.  On full success the connection is closed
(result `true`). -/
def runLoadsAux {Row : Type} (flushOk : Entity → List Row → Bool)
    (data : Entity → List Row) :
    List Entity → List (OEvent Row) → List (OEvent Row) × Bool
  | [], acc => (acc ++ [OEvent.close], true)
  | e :: rest, acc =>
    match (insert_dataframe_in_chunks (flushOk e) (data e) CHUNK_SIZE).2 with
    | none => (acc ++ [OEvent.read e], false)
    | some n =>
      runLoadsAux flushOk data rest
        (acc ++ [OEvent.read e, OEvent.load e (tableName e) n])

/-- Entry point of the orchestrator model: run the four loads in the fixed
order starting from an empty event history. -/
def runLoads {Row : Type} (flushOk : Entity → List Row → Bool)
    (data : Entity → List Row) : List (OEvent Row) × Bool :=
  runLoadsAux flushOk data loadOrder []

/-- The read/load event pairs produced by a sequence of successful entity
loads, each paired with its reported count. -/
def successEvents {Row : Type} : List (Entity × Int) → List (OEvent Row)
  | [] => []
  | (e, n) :: rest =>
    OEvent.read e :: OEvent.load e (tableName e) n :: successEvents rest

theorem chunksOf_nil {α : Type} (B : Nat) : chunksOf B ([] : List α) = [] := by
  rw [chunksOf]

theorem chunksOf_cons {α : Type} {B : Nat} (hB : 1 ≤ B) (x : α) (xs : List α) :
    chunksOf B (x :: xs) = ((x :: xs).take B) :: chunksOf B ((x :: xs).drop B) := by
  rw [chunksOf]
  simp [hB]

theorem chunksOf_length {α : Type} (B : Nat) (hB : 1 ≤ B) (l : List α) :
    (chunksOf B l).length = (l.length + B - 1) / B := by
  induction l using chunksOf.induct B with
  | case1 => simp [chunksOf, Nat.div_eq_of_lt (by omega : B - 1 < B)]
  | case2 x xs h ih =>
    rw [chunksOf_cons hB]
    simp only [List.length_cons, ih]
    rcases Nat.lt_or_ge (xs.length + 1) B with hlt | hge
    · rw [List.drop_eq_nil_of_le (by simp; omega)]
      simp only [List.length_nil]
      rw [Nat.div_eq_of_lt (by omega)]
      have h2 : xs.length + 1 + B - 1 = xs.length + B := by omega
      rw [h2, Nat.add_div_right _ (by omega), Nat.div_eq_of_lt (by omega)]
    · simp only [List.length_drop, List.length_cons]
      have h2 : xs.length + 1 + B - 1 = (xs.length + 1 - B + B - 1) + B := by omega
      rw [h2, Nat.add_div_right _ (by omega)]
  | case3 x xs h => omega

theorem chunksOf_ne_nil {α : Type} (B : Nat) (hB : 1 ≤ B) (l : List α)
    (hl : l ≠ []) : chunksOf B l ≠ [] := by
  cases l with
  | nil => exact absurd rfl hl
  | cons x xs => rw [chunksOf_cons hB]; simp

theorem chunksOf_flatten {α : Type} (B : Nat) (hB : 1 ≤ B) (l : List α) :
    (chunksOf B l).flatten = l := by
  induction l using chunksOf.induct B with
  | case1 => simp [chunksOf]
  | case2 x xs h ih =>
    rw [chunksOf_cons hB]
    simp only [List.flatten_cons, ih, List.take_append_drop]
  | case3 x xs h => omega

theorem chunksOf_mem_ne_nil {α : Type} (B : Nat) (hB : 1 ≤ B) (l : List α) :
    ∀ c ∈ chunksOf B l, c ≠ [] := by
  induction l using chunksOf.induct B with
  | case1 => simp [chunksOf]
  | case2 x xs h ih =>
    rw [chunksOf_cons hB]
    intro c hc
    rcases List.mem_cons.mp hc with hc | hc
    · subst hc
      intro hnil
      have := congrArg List.length hnil
      simp only [List.length_take, List.length_cons, List.length_nil] at this
      omega
    · exact ih c hc
  | case3 x xs h => omega

theorem chunksOf_dropLast_length {α : Type} (B : Nat) (hB : 1 ≤ B) (l : List α) :
    ∀ c ∈ (chunksOf B l).dropLast, c.length = B := by
  induction l using chunksOf.induct B with
  | case1 => simp [chunksOf]
  | case2 x xs h ih =>
    rw [chunksOf_cons hB]
    rcases le_or_lt (xs.length + 1) B with hle | hgt
    · rw [List.drop_eq_nil_of_le (by simp; omega), chunksOf_nil]
      simp
    · have hdrop : (x :: xs).drop B ≠ [] := by
        intro hnil
        have := congrArg List.length hnil
        simp only [List.length_drop, List.length_cons, List.length_nil] at this
        omega
      have hne := chunksOf_ne_nil B hB _ hdrop
      rcases List.exists_cons_of_ne_nil hne with ⟨c0, cs, hcs⟩
      rw [hcs]
      intro c hc
      rw [List.dropLast_cons₂] at hc
      rcases List.mem_cons.mp hc with hc | hc
      · subst hc
        simp only [List.length_take, List.length_cons]
        omega
      · exact ih c (by rw [hcs]; exact hc)
  | case3 x xs h => omega

theorem chunksOf_getLast_length {α : Type} (B : Nat) (hB : 1 ≤ B) (l : List α)
    (hl : l ≠ []) :
    (chunksOf B l).getLast?.map List.length =
      some (if l.length % B = 0 then B else l.length % B) := by
  induction l using chunksOf.induct B with
  | case1 => exact absurd rfl hl
  | case2 x xs h ih =>
    rw [chunksOf_cons hB]
    rcases le_or_lt (xs.length + 1) B with hle | hgt
    · rw [List.drop_eq_nil_of_le (by simp; omega), chunksOf_nil]
      simp only [List.getLast?_singleton, Option.map_some', List.length_take,
        List.length_cons, Option.some.injEq]
      rcases Nat.lt_or_eq_of_le hle with hlt | heq
      · rw [Nat.mod_eq_of_lt hlt, if_neg (by omega)]
        omega
      · rw [heq, Nat.mod_self, if_pos rfl]
        omega
    · have hdrop : (x :: xs).drop B ≠ [] := by
        intro hnil
        have := congrArg List.length hnil
        simp only [List.length_drop, List.length_cons, List.length_nil] at this
        omega
      have hne := chunksOf_ne_nil B hB _ hdrop
      rcases List.exists_cons_of_ne_nil hne with ⟨c0, cs, hcs⟩
      rw [hcs, List.getLast?_cons_cons, ← hcs, ih hdrop]
      have hmod : ((x :: xs).drop B).length % B = (x :: xs).length % B := by
        simp only [List.length_drop, List.length_cons]
        have h2 : xs.length + 1 = (xs.length + 1 - B) + B := by omega
        conv_rhs => rw [h2]
        rw [Nat.add_mod_right]
      rw [hmod]
  | case3 x xs h => omega

theorem chunkLoop_ok {Row : Type} (B : Nat) (hB : 1 ≤ B) :
    ∀ (rows buffer : List Row), buffer.length < B →
    ∀ (count : Int) (trace : List (Event Row)),
    chunkLoop (fun _ => true) (B : Int) rows buffer count trace =
      (trace ++ (chunksOf B (buffer ++ rows)).map Event.flush ++ [Event.commit],
       some (count + buffer.length + rows.length)) := by
  intro rows
  induction rows with
  | nil =>
    intro buffer hbuf count trace
    rw [chunkLoop]
    by_cases hemp : buffer.isEmpty
    · rw [if_pos hemp]
      rw [List.isEmpty_iff] at hemp
      subst hemp
      simp [chunksOf_nil]
    · rw [if_neg hemp, if_pos rfl]
      rw [List.isEmpty_iff] at hemp
      rcases List.exists_cons_of_ne_nil hemp with ⟨b0, bs, hbs⟩
      have htake : buffer.take B = buffer := List.take_of_length_le (by omega)
      have hdrop : buffer.drop B = [] := List.drop_eq_nil_of_le (by omega)
      rw [List.append_nil]
      rw [hbs, chunksOf_cons hB, ← hbs, htake, hdrop, chunksOf_nil]
      simp
  | cons r rest ih =>
    intro buffer hbuf count trace
    rw [chunkLoop]
    simp only []
    by_cases hfull : ((buffer ++ [r]).length : Int) = (B : Int)
    · rw [if_pos hfull, if_pos trivial]
      have hfullN : (buffer ++ [r]).length = B := by exact_mod_cast hfull
      rw [ih [] (by simp; omega) (count + (B : Int)) (trace ++ [Event.flush (buffer ++ [r])])]
      have hsplit : buffer ++ r :: rest = (buffer ++ [r]) ++ rest := by simp
      rw [hsplit]
      have hchunks : chunksOf B ((buffer ++ [r]) ++ rest) =
          (buffer ++ [r]) :: chunksOf B rest := by
        rcases List.exists_cons_of_ne_nil
            (show (buffer ++ [r]) ++ rest ≠ [] by simp) with ⟨y, ys, hys⟩
        rw [hys, chunksOf_cons hB, ← hys]
        rw [show B = (buffer ++ [r]).length from hfullN.symm]
        rw [List.take_left, List.drop_left]
      rw [hchunks]
      rw [Prod.mk.injEq]
      constructor
      · simp
      · rw [Option.some.injEq]
        have hlen : buffer.length + 1 = B := by simpa using hfullN
        push_cast [List.length_nil, List.length_cons, List.length_append]
        omega
    · rw [if_neg hfull]
      rw [ih (buffer ++ [r]) (by
            have hne : (buffer ++ [r]).length ≠ B := fun hc => hfull (by exact_mod_cast hc)
            simp only [List.length_append, List.length_singleton] at *
            omega)
          count trace]
      have hsplit : buffer ++ r :: rest = (buffer ++ [r]) ++ rest := by simp
      rw [hsplit]
      rw [Prod.mk.injEq]
      refine ⟨rfl, ?_⟩
      rw [Option.some.injEq]
      push_cast [List.length_append, List.length_cons, List.length_nil]
      omega

/-- Normal-operation run of the loader (every flush succeeds): the trace is
BEGIN, one flush per chunk of the input in order, COMMIT, and the returned
count is the input length. -/
theorem insert_chunks_ok {Row : Type} (B : Nat) (hB : 1 ≤ B) (rows : List Row) :
    insert_dataframe_in_chunks (fun _ => true) rows (B : Int) =
      (Event.begin :: ((chunksOf B rows).map Event.flush ++ [Event.commit]),
       some (rows.length : Int)) := by
  unfold insert_dataframe_in_chunks
  rw [chunkLoop_ok B hB rows [] (by simp; omega) 0 [Event.begin]]
  simp

theorem flushBatches_run {Row : Type} (cs : List (List Row)) :
    flushBatches (Event.begin :: ((cs.map Event.flush) ++ [Event.commit])) = cs := by
  unfold flushBatches
  simp only [List.filterMap_cons, List.filterMap_append, List.filterMap_map]
  have hcomp : ((fun e : Event Row =>
      match e with
      | Event.flush b => some b
      | _ => none) ∘ Event.flush) = some := by
    funext b
    rfl
  rw [hcomp, List.filterMap_some]
  simp

theorem chunkLoop_shape {Row : Type} (flushOk : List Row → Bool) (cs : Int) :
    ∀ (rows buffer : List Row) (count : Int) (trace : List (Event Row)),
    ∃ batches : List (List Row),
      (∃ n, chunkLoop flushOk cs rows buffer count trace =
          (trace ++ batches.map Event.flush ++ [Event.commit], some n)) ∨
      chunkLoop flushOk cs rows buffer count trace =
          (trace ++ batches.map Event.flush ++ [Event.rollback], none) := by
  intro rows
  induction rows with
  | nil =>
    intro buffer count trace
    rw [chunkLoop]
    by_cases hemp : buffer.isEmpty
    · exact ⟨[], Or.inl ⟨count, by rw [if_pos hemp]; simp⟩⟩
    · by_cases hok : flushOk buffer
      · exact ⟨[buffer], Or.inl ⟨count + buffer.length,
          by rw [if_neg hemp, if_pos hok]; simp⟩⟩
      · exact ⟨[], Or.inr (by rw [if_neg hemp, if_neg hok]; simp)⟩
  | cons r rest ih =>
    intro buffer count trace
    rw [chunkLoop]
    by_cases hfull : (((buffer ++ [r]).length : Int) = cs)
    · rw [if_pos hfull]
      by_cases hok : flushOk (buffer ++ [r])
      · rw [if_pos hok]
        rcases ih [] (count + cs) (trace ++ [Event.flush (buffer ++ [r])])
          with ⟨bs, ⟨n, heq⟩ | heq⟩
        · exact ⟨(buffer ++ [r]) :: bs, Or.inl ⟨n, by rw [heq]; simp⟩⟩
        · exact ⟨(buffer ++ [r]) :: bs, Or.inr (by rw [heq]; simp)⟩
      · rw [if_neg hok]
        exact ⟨[], Or.inr (by simp)⟩
    · rw [if_neg hfull]
      exact ih (buffer ++ [r]) count trace

theorem countP_map_flush_isBegin {Row : Type} (bs : List (List Row)) :
    (bs.map Event.flush).countP isBeginEv = 0 := by
  rw [List.countP_eq_zero]
  intro e he
  rcases List.mem_map.mp he with ⟨b, _, hb⟩
  subst hb
  simp [isBeginEv]

theorem countP_map_flush_isEnd {Row : Type} (bs : List (List Row)) :
    (bs.map Event.flush).countP isEndEv = 0 := by
  rw [List.countP_eq_zero]
  intro e he
  rcases List.mem_map.mp he with ⟨b, _, hb⟩
  subst hb
  simp [isEndEv]

theorem chunkLoop_nonpos {Row : Type} (cs : Int) (hcs : cs ≤ 0) :
    ∀ (rows buffer : List Row) (count : Int) (trace : List (Event Row)),
    buffer ++ rows ≠ [] →
    chunkLoop (fun _ => true) cs rows buffer count trace =
      (trace ++ [Event.flush (buffer ++ rows), Event.commit],
       some (count + buffer.length + rows.length)) := by
  intro rows
  induction rows with
  | nil =>
    intro buffer count trace hne
    rw [List.append_nil] at hne
    rw [chunkLoop]
    rw [if_neg (by simpa [List.isEmpty_iff] using hne), if_pos rfl]
    simp
  | cons r rest ih =>
    intro buffer count trace hne
    rw [chunkLoop]
    simp only []
    have hcond : ¬(((buffer ++ [r]).length : Int) = cs) := by
      intro hc
      have : 1 ≤ (buffer ++ [r]).length := by simp
      omega
    rw [if_neg hcond]
    rw [ih (buffer ++ [r]) count trace (by simp)]
    have hsplit : buffer ++ r :: rest = (buffer ++ [r]) ++ rest := by simp
    rw [hsplit]
    rw [Prod.mk.injEq]
    refine ⟨rfl, ?_⟩
    rw [Option.some.injEq]
    push_cast [List.length_append, List.length_cons, List.length_nil]
    omega

theorem beginTrace_getLast {Row : Type} (bs : List (List Row)) (e : Event Row) :
    ([Event.begin] ++ bs.map Event.flush ++ [e]).getLast? = some e :=
  List.getLast?_concat _

theorem beginTrace_countBegin {Row : Type} (bs : List (List Row))
    (e : Event Row) (he : isBeginEv e = false) :
    ([Event.begin] ++ bs.map Event.flush ++ [e]).countP isBeginEv = 1 := by
  rw [List.countP_append, List.countP_append, countP_map_flush_isBegin]
  simp only [List.countP_cons, List.countP_nil, he]
  simp [isBeginEv]

theorem beginTrace_countEnd {Row : Type} (bs : List (List Row))
    (e : Event Row) (he : isEndEv e = true) :
    ([Event.begin] ++ bs.map Event.flush ++ [e]).countP isEndEv = 1 := by
  rw [List.countP_append, List.countP_append, countP_map_flush_isEnd]
  simp only [List.countP_cons, List.countP_nil, he]
  simp [isEndEv]

/-- C1: for every input buffer of N rows and every batch size B ≥ 1, in
normal operation (every flush succeeds) the number of flush operations
equals ceil(N/B); every non-final flush submits exactly B rows; the final
flush submits N mod B rows (or B rows when N mod B = 0 and N > 0); no
empty flush is ever attempted (in particular no trailing one when N is an
exact multiple of B); and when N = 0 zero flushes occur but the transaction
is still opened and committed and 0 is returned. -/
theorem C1_chunk_boundary_correctness {Row : Type} (rows : List Row) (B : Nat)
    (hB : 1 ≤ B) :
    (flushBatches (insert_dataframe_in_chunks (fun _ => true) rows
        (B : Int)).1).length = (rows.length + B - 1) / B ∧
    (∀ b ∈ (flushBatches (insert_dataframe_in_chunks (fun _ => true) rows
        (B : Int)).1).dropLast, b.length = B) ∧
    (rows ≠ [] →
      (flushBatches (insert_dataframe_in_chunks (fun _ => true) rows
          (B : Int)).1).getLast?.map List.length =
        some (if rows.length % B = 0 then B else rows.length % B)) ∧
    (∀ b ∈ flushBatches (insert_dataframe_in_chunks (fun _ => true) rows
        (B : Int)).1, b ≠ []) ∧
    (rows = [] →
      insert_dataframe_in_chunks (fun _ => true) rows (B : Int) =
        ([Event.begin, Event.commit], some 0)) := by
  rw [insert_chunks_ok B hB rows]
  dsimp only
  rw [flushBatches_run]
  refine ⟨chunksOf_length B hB rows, chunksOf_dropLast_length B hB rows,
    fun hne => chunksOf_getLast_length B hB rows hne,
    chunksOf_mem_ne_nil B hB rows, fun hnil => ?_⟩
  subst hnil
  simp [chunksOf_nil]

/-- Witness for C1 at rows = [1, 2, 3] and B = 2. -/
theorem C1_chunk_boundary_correctness_witness :
    (flushBatches (insert_dataframe_in_chunks (fun _ => true)
        ([1, 2, 3] : List Nat) ((2 : Nat) : Int)).1).length =
      (([1, 2, 3] : List Nat).length + 2 - 1) / 2 ∧
    (∀ b ∈ (flushBatches (insert_dataframe_in_chunks (fun _ => true)
        ([1, 2, 3] : List Nat) ((2 : Nat) : Int)).1).dropLast, b.length = 2) ∧
    (([1, 2, 3] : List Nat) ≠ [] →
      (flushBatches (insert_dataframe_in_chunks (fun _ => true)
          ([1, 2, 3] : List Nat) ((2 : Nat) : Int)).1).getLast?.map
        List.length =
        some (if ([1, 2, 3] : List Nat).length % 2 = 0 then 2
          else ([1, 2, 3] : List Nat).length % 2)) ∧
    (∀ b ∈ flushBatches (insert_dataframe_in_chunks (fun _ => true)
        ([1, 2, 3] : List Nat) ((2 : Nat) : Int)).1, b ≠ []) ∧
    (([1, 2, 3] : List Nat) = [] →
      insert_dataframe_in_chunks (fun _ => true) ([1, 2, 3] : List Nat)
          ((2 : Nat) : Int) =
        ([Event.begin, Event.commit], some 0)) :=
  C1_chunk_boundary_correctness [1, 2, 3] 2 (by decide)

/-- C2: for every flush-failure pattern, every chunk size and every input,
the loader opens exactly one transaction (the trace starts with the single
BEGIN), and ends it by exactly one COMMIT or ROLLBACK as the final event;
the call raises (returns `none`) exactly when the transaction was rolled
back, so a failing flush rolls back the whole per-table transaction and
re-raises. -/
theorem C2_transaction_all_or_nothing {Row : Type} (flushOk : List Row → Bool)
    (rows : List Row) (chunk_size : Int) :
    ∃ (tr : List (Event Row)) (res : Option Int),
      insert_dataframe_in_chunks flushOk rows chunk_size = (tr, res) ∧
      tr.head? = some Event.begin ∧
      tr.countP isBeginEv = 1 ∧
      tr.countP isEndEv = 1 ∧
      (∃ e, tr.getLast? = some e ∧ isEndEv e = true) ∧
      (res = none ↔ tr.getLast? = some Event.rollback) := by
  rcases chunkLoop_shape flushOk chunk_size rows [] 0 [Event.begin]
    with ⟨bs, ⟨n, heq⟩ | heq⟩
  · have heq' : insert_dataframe_in_chunks flushOk rows chunk_size =
        ([Event.begin] ++ bs.map Event.flush ++ [Event.commit], some n) := heq
    refine ⟨_, _, heq', by simp, beginTrace_countBegin bs Event.commit rfl,
      beginTrace_countEnd bs Event.commit rfl,
      ⟨Event.commit, beginTrace_getLast bs Event.commit, rfl⟩, ?_⟩
    rw [beginTrace_getLast]
    simp
  · have heq' : insert_dataframe_in_chunks flushOk rows chunk_size =
        ([Event.begin] ++ bs.map Event.flush ++ [Event.rollback], none) := heq
    refine ⟨_, _, heq', by simp, beginTrace_countBegin bs Event.rollback rfl,
      beginTrace_countEnd bs Event.rollback rfl,
      ⟨Event.rollback, beginTrace_getLast bs Event.rollback, rfl⟩, ?_⟩
    rw [beginTrace_getLast]
    simp

/-- C3: for every input buffer of N rows and every batch size B ≥ 1, the
loader returns exactly N, the count of rows submitted for insertion. -/
theorem C3_returns_submitted_count {Row : Type} (rows : List Row) (B : Nat)
    (hB : 1 ≤ B) :
    (insert_dataframe_in_chunks (fun _ => true) rows (B : Int)).2 =
      some (rows.length : Int) := by
  rw [insert_chunks_ok B hB rows]

/-- Witness for C3 at rows = [5, 6, 7, 8, 9] and B = 2. -/
theorem C3_returns_submitted_count_witness :
    (insert_dataframe_in_chunks (fun _ => true) ([5, 6, 7, 8, 9] : List Nat)
        ((2 : Nat) : Int)).2 = some (([5, 6, 7, 8, 9] : List Nat).length : Int) :=
  C3_returns_submitted_count [5, 6, 7, 8, 9] 2 (by decide)

/-- C9: the loader preserves row order: the concatenation, in flush order,
of the batches passed to `executemany` is exactly the input row sequence,
each row submitted exactly once. -/
theorem C9_row_order_preserved {Row : Type} (rows : List Row) (B : Nat)
    (hB : 1 ≤ B) :
    (flushBatches (insert_dataframe_in_chunks (fun _ => true) rows
        (B : Int)).1).flatten = rows := by
  rw [insert_chunks_ok B hB rows]
  dsimp only
  rw [flushBatches_run, chunksOf_flatten B hB]

/-- Witness for C9 at rows = [3, 1, 2, 5] and B = 3. -/
theorem C9_row_order_preserved_witness :
    (flushBatches (insert_dataframe_in_chunks (fun _ => true)
        ([3, 1, 2, 5] : List Nat) ((3 : Nat) : Int)).1).flatten =
      ([3, 1, 2, 5] : List Nat) :=
  C9_row_order_preserved [3, 1, 2, 5] 3 (by decide)

/-- C10: with a non-positive `chunk_size` and a non-empty buffer the
mid-loop flush condition never fires, so all N rows accumulate and are
submitted as one final batch of size N (the bounded-batch guarantee thus
needs the precondition `chunk_size ≥ 1`); the run still commits and
returns N. -/
theorem C10_nonpositive_chunk_size {Row : Type} (rows : List Row) (cs : Int)
    (hcs : cs ≤ 0) (hrows : rows ≠ []) :
    insert_dataframe_in_chunks (fun _ => true) rows cs =
      ([Event.begin, Event.flush rows, Event.commit],
       some (rows.length : Int)) := by
  unfold insert_dataframe_in_chunks
  rw [chunkLoop_nonpos cs hcs rows [] 0 [Event.begin] (by simpa using hrows)]
  simp

/-- Witness for C10 at rows = [7, 7, 7] and chunk_size = 0. -/
theorem C10_nonpositive_chunk_size_witness :
    insert_dataframe_in_chunks (fun _ => true) ([7, 7, 7] : List Nat) 0 =
      ([Event.begin, Event.flush [7, 7, 7], Event.commit],
       some (([7, 7, 7] : List Nat).length : Int)) :=
  C10_nonpositive_chunk_size [7, 7, 7] 0 (by decide) (by decide)

theorem hasKey_insertOrIgnore_self {Row K : Type} [DecidableEq K]
    (key : Row → K) (t : List Row) (r : Row) :
    hasKey key (insertOrIgnore key t r) (key r) = true := by
  unfold insertOrIgnore
  by_cases h : hasKey key t (key r)
  · rw [if_pos h]
    exact h
  · rw [if_neg h]
    unfold hasKey
    rw [List.any_append]
    simp

theorem hasKey_insertOrIgnore_mono {Row K : Type} [DecidableEq K]
    (key : Row → K) (t : List Row) (r : Row) (k : K)
    (h : hasKey key t k = true) :
    hasKey key (insertOrIgnore key t r) k = true := by
  unfold insertOrIgnore
  by_cases h2 : hasKey key t (key r)
  · rw [if_pos h2]
    exact h
  · rw [if_neg h2]
    unfold hasKey at h ⊢
    rw [List.any_append]
    simp [h]

theorem hasKey_loadRows_mono {Row K : Type} [DecidableEq K]
    (key : Row → K) (rows : List Row) :
    ∀ (t : List Row) (k : K), hasKey key t k = true →
    hasKey key (loadRows key t rows) k = true := by
  induction rows with
  | nil => exact fun t k h => h
  | cons r rest ih =>
    intro t k h
    exact ih (insertOrIgnore key t r) k (hasKey_insertOrIgnore_mono key t r k h)

theorem hasKey_loadRows_of_mem {Row K : Type} [DecidableEq K]
    (key : Row → K) (rows : List Row) :
    ∀ (t : List Row) (r : Row), r ∈ rows →
    hasKey key (loadRows key t rows) (key r) = true := by
  induction rows with
  | nil =>
    intro t r hr
    cases hr
  | cons r0 rest ih =>
    intro t r hr
    rcases List.mem_cons.mp hr with hr | hr
    · subst hr
      exact hasKey_loadRows_mono key rest (insertOrIgnore key t r) (key r)
        (hasKey_insertOrIgnore_self key t r)
    · exact ih (insertOrIgnore key t r0) r hr

theorem loadRows_of_all_hasKey {Row K : Type} [DecidableEq K]
    (key : Row → K) (rows : List Row) :
    ∀ t : List Row, (∀ r ∈ rows, hasKey key t (key r) = true) →
    loadRows key t rows = t := by
  induction rows with
  | nil => exact fun t _ => rfl
  | cons r rest ih =>
    intro t h
    have ht : insertOrIgnore key t r = t := by
      unfold insertOrIgnore
      rw [if_pos (h r (List.mem_cons_self r rest))]
    show loadRows key (insertOrIgnore key t r) rest = t
    rw [ht]
    exact ih t fun r2 hr2 => h r2 (List.mem_cons_of_mem r hr2)

/-- C4: a row whose primary key is already present in the table is silently
dropped by the insert policy (the table is unchanged — no error, no
overwrite), and consequently loading the same row set a second time into
the already-populated target leaves the table, hence its row count, exactly
as after the first load. -/
theorem C4_insert_policy_idempotent {Row K : Type} [DecidableEq K]
    (key : Row → K) (table rows : List Row) :
    (∀ r, hasKey key table (key r) = true →
      insertOrIgnore key table r = table) ∧
    loadRows key (loadRows key table rows) rows = loadRows key table rows ∧
    (loadRows key (loadRows key table rows) rows).length =
      (loadRows key table rows).length := by
  have h2 : loadRows key (loadRows key table rows) rows =
      loadRows key table rows :=
    loadRows_of_all_hasKey key rows (loadRows key table rows)
      fun r hr => hasKey_loadRows_of_mem key rows table r hr
  refine ⟨fun r h => ?_, h2, congrArg List.length h2⟩
  unfold insertOrIgnore
  rw [if_pos h]

/-- Witness for C4 at key = id, table = [1, 2], rows = [2, 3] (the row 2
duplicates an already-present key). -/
theorem C4_insert_policy_idempotent_witness :
    (∀ r : Nat, hasKey id ([1, 2] : List Nat) (id r) = true →
      insertOrIgnore id ([1, 2] : List Nat) r = [1, 2]) ∧
    loadRows id (loadRows id ([1, 2] : List Nat) [2, 3]) [2, 3] =
      loadRows id ([1, 2] : List Nat) [2, 3] ∧
    (loadRows id (loadRows id ([1, 2] : List Nat) [2, 3]) [2, 3]).length =
      (loadRows id ([1, 2] : List Nat) [2, 3]).length :=
  C4_insert_policy_idempotent id [1, 2] [2, 3]

/-- C5 counterexample: the module-level creation order does not respect
foreign-key dependencies: the child `I_SalesDocumentItem` is created before
its parent `I_Customer`, and the child `I_Customer` before its parent
`I_AddrOrgNamePostalAddress`. -/
theorem C5_creation_order_counterexample :
    createsParentsFirst = false ∧
    ("I_SalesDocumentItem", "I_Customer") ∈ foreignKeyEdges ∧
    createOrder.indexOf ("I_SalesDocumentItem") <
      createOrder.indexOf ("I_Customer") ∧
    ("I_Customer", "I_AddrOrgNamePostalAddress") ∈ foreignKeyEdges ∧
    createOrder.indexOf ("I_Customer") <
      createOrder.indexOf ("I_AddrOrgNamePostalAddress") := by
  decide

/-- C5 (amended): the Schema Definer drops the four prior same-named tables
with every child dropped before its parents, and creates exactly the same
four tables; the creation order puts `I_SalesDocument` before its child
`I_SalesDocumentItem`, but does not respect the foreign-key edges into
`I_Customer` and `I_AddrOrgNamePostalAddress`, whose children are created
first. -/
theorem C5_schema_order_amended :
    dropsChildrenFirst = true ∧
    dropOrder.Perm createOrder ∧
    createOrder.indexOf ("I_SalesDocument") <
      createOrder.indexOf ("I_SalesDocumentItem") ∧
    createsParentsFirst = false := by
  refine ⟨by decide, by decide, by decide, by decide⟩

theorem successEvents_no_close {Row : Type} (l : List (Entity × Int)) :
    (OEvent.close : OEvent Row) ∉ successEvents l := by
  induction l with
  | nil => simp [successEvents]
  | cons p rest ih =>
    rcases p with ⟨e, n⟩
    simp only [successEvents, List.mem_cons]
    push_neg
    exact ⟨by simp, by simp, ih⟩

theorem runLoadsAux_fail {Row : Type} (flushOk : Entity → List Row → Bool)
    (data : Entity → List Row) :
    ∀ (es : List Entity) (acc : List (OEvent Row)),
    (runLoadsAux flushOk data es acc).2 = false →
    ∃ (done : List (Entity × Int)) (efail : Entity) (rest2 : List Entity),
      es = done.map Prod.fst ++ efail :: rest2 ∧
      (runLoadsAux flushOk data es acc).1 =
        acc ++ successEvents done ++ [OEvent.read efail] := by
  intro es
  induction es with
  | nil =>
    intro acc h
    simp [runLoadsAux] at h
  | cons e rest ih =>
    intro acc h
    rcases hres : (insert_dataframe_in_chunks (flushOk e) (data e) CHUNK_SIZE).2
      with _ | n
    · simp only [runLoadsAux, hres] at h ⊢
      exact ⟨[], e, rest, by simp, by simp [successEvents]⟩
    · simp only [runLoadsAux, hres] at h ⊢
      rcases ih _ h with ⟨done, efail, rest2, hes, htr⟩
      refine ⟨(e, n) :: done, efail, rest2, by simp [hes], ?_⟩
      rw [htr]
      simp [successEvents]

/-- C6 (amended): if any entity's load step fails, the orchestrator does
not attempt the remaining entity loads — the event history is the
successful prefix followed by the failing entity's read, nothing after —
and the error propagates, but the target store connection is NOT released
on this path: the close happens only when all four loads succeed. -/
theorem C6_fail_fast_without_close {Row : Type}
    (flushOk : Entity → List Row → Bool) (data : Entity → List Row)
    (hfail : (runLoads flushOk data).2 = false) :
    OEvent.close ∉ (runLoads flushOk data).1 ∧
    ∃ (done : List (Entity × Int)) (efail : Entity) (rest2 : List Entity),
      loadOrder = done.map Prod.fst ++ efail :: rest2 ∧
      (runLoads flushOk data).1 =
        successEvents done ++ [OEvent.read efail] := by
  rcases runLoadsAux_fail flushOk data loadOrder [] hfail
    with ⟨done, efail, rest2, hes, htr⟩
  have htr2 : (runLoads flushOk data).1 =
      successEvents done ++ [OEvent.read efail] := by
    unfold runLoads
    rw [htr]
    simp
  refine ⟨?_, done, efail, rest2, hes, htr2⟩
  rw [htr2]
  intro hmem
  rcases List.mem_append.mp hmem with hmem | hmem
  · exact successEvents_no_close done hmem
  · simp at hmem

/-- Witness for C6 (amended) with the customer load failing. -/
theorem C6_fail_fast_without_close_witness :
    OEvent.close ∉
      (runLoads
        (fun e _ => match e with | Entity.customer => false | _ => true)
        (fun e => match e with
          | Entity.customer => [0]
          | _ => ([] : List Nat))).1 ∧
    ∃ (done : List (Entity × Int)) (efail : Entity) (rest2 : List Entity),
      loadOrder = done.map Prod.fst ++ efail :: rest2 ∧
      (runLoads
        (fun e _ => match e with | Entity.customer => false | _ => true)
        (fun e => match e with
          | Entity.customer => [0]
          | _ => ([] : List Nat))).1 =
        successEvents done ++ [OEvent.read efail] :=
  C6_fail_fast_without_close _ _ (by decide)

/-- C6 counterexample: with the customer load raising, the orchestrator
fails fast and the error propagates, but no close event ever occurs — the
store connection is not released before the error reaches the caller,
contradicting the claim that the error propagates only after the
connection is closed. -/
theorem C6_close_not_reached_counterexample :
    (runLoads
        (fun e _ => match e with | Entity.customer => false | _ => true)
        (fun e => match e with
          | Entity.customer => [0]
          | _ => ([] : List Nat))).2 = false ∧
    OEvent.close ∉
      (runLoads
        (fun e _ => match e with | Entity.customer => false | _ => true)
        (fun e => match e with
          | Entity.customer => [0]
          | _ => ([] : List Nat))).1 := by
  decide

/-- C7: the normalization step converts every creation-date/time cell to
canonical text before the buffer reaches the loader, and a native date for
2024-03-01 reads back from the TEXT column as the text 2024-03-01 rather
than an implementation-specific rendering. -/
theorem C7_creation_date_normalization (row : String → PyValue)
    (hdate : row ("CREATIONDATE") = PyValue.date 2024 3 1) :
    readBackText (normalize_salesdocuments row ("CREATIONDATE")) =
      some ("2024-03-01") ∧
    (∀ c, c = "CREATIONDATE" ∨ c = "CREATIONTIME" →
      ∃ s, normalize_salesdocuments row c = PyValue.text s) := by
  constructor
  · unfold normalize_salesdocuments
    rw [if_pos rfl, hdate]
    decide
  · intro c hc
    unfold normalize_salesdocuments
    rcases hc with hc | hc
    · subst hc
      rw [if_pos rfl]
      exact ⟨_, rfl⟩
    · subst hc
      rw [if_neg (by decide), if_pos rfl]
      exact ⟨_, rfl⟩

/-- Witness for C7 at a concrete row whose creation date is 2024-03-01. -/
theorem C7_creation_date_normalization_witness :
    readBackText (normalize_salesdocuments
        (fun c => if c = "CREATIONDATE" then PyValue.date 2024 3 1
          else PyValue.time 8 30 0) ("CREATIONDATE")) =
      some ("2024-03-01") ∧
    (∀ c, c = "CREATIONDATE" ∨ c = "CREATIONTIME" →
      ∃ s, normalize_salesdocuments
          (fun c2 => if c2 = "CREATIONDATE" then PyValue.date 2024 3 1
            else PyValue.time 8 30 0) c = PyValue.text s) :=
  C7_creation_date_normalization _ (by decide)

/-- C8: the orchestrator performs the four entity loads in the fixed order
Address, Customer, SalesDocument, SalesDocumentItem; for each entity in
that order it reads the source buffer, invokes the chunked loader against
the corresponding target table, and reports the returned row count; on
full success the connection is then closed. -/
theorem C8_load_order {Row : Type} (data : Entity → List Row) :
    runLoads (fun _ _ => true) data =
      ([OEvent.read Entity.address,
        OEvent.load Entity.address (tableName Entity.address)
          ((data Entity.address).length : Int),
        OEvent.read Entity.customer,
        OEvent.load Entity.customer (tableName Entity.customer)
          ((data Entity.customer).length : Int),
        OEvent.read Entity.salesDocument,
        OEvent.load Entity.salesDocument (tableName Entity.salesDocument)
          ((data Entity.salesDocument).length : Int),
        OEvent.read Entity.salesDocumentItem,
        OEvent.load Entity.salesDocumentItem
          (tableName Entity.salesDocumentItem)
          ((data Entity.salesDocumentItem).length : Int),
        OEvent.close], true) := by
  have hsucc : ∀ rows : List Row,
      (insert_dataframe_in_chunks (fun _ => true) rows CHUNK_SIZE).2 =
        some (rows.length : Int) := by
    intro rows
    have hcs : CHUNK_SIZE = ((10000 : Nat) : Int) := rfl
    rw [hcs, insert_chunks_ok 10000 (by omega) rows]
  simp [runLoads, loadOrder, runLoadsAux, hsucc]

end SaltBuild
